import Mathlib

/-!
Verification of the actor geolocation and multi-frame tracking engine of the
ai-event-videos repository. The definitions below are shallow embeddings of
the TypeScript sources (src/lib/actor-matching.ts, the useActorTracking hook,
src/app/api/detect-actors/route.ts). JavaScript numbers are modelled as
rationals; the haversine distance (transcendental float arithmetic) is
abstracted as an explicit distance-function parameter `d`, so that every
theorem about the matching gates holds for the haversine instance in
particular. JavaScript `Array.prototype.sort` is stable, and a stable sort
by a total preorder is unique, so it is modelled by `List.insertionSort`,
which Mathlib shows to be stable.
-/

namespace AEV

/-- Model of JavaScript `Math.round`: rounds half up (toward positive
infinity), i.e. `Math.round x = ⌊x + 1/2⌋`. -/
def jsRound (x : ℚ) : ℤ := (x + 1/2).floor

/-- Rounding to one decimal place, `Math.round (x * 10) / 10`, as used by
`computeKeyframes` in the tracking hook. -/
def jsRound10 (x : ℚ) : ℚ := (jsRound (x * 10) : ℚ) / 10

/-- Embedding of the `for (let t = KEYFRAME_START; t < duration - 0.5; t += KEYFRAME_INTERVAL)`
loop of `computeKeyframes`, with `KEYFRAME_START = 0.5` and
`KEYFRAME_INTERVAL = 1`. The extra `fuel` argument only bounds the number of
iterations so that the recursion is structural; `computeKeyframes` supplies
fuel strictly larger than the trip count of the loop. -/
def keyframeLoop (duration : ℚ) : ℕ → ℚ → List ℚ
  | 0, _ => []
  | fuel + 1, t =>
    if t < duration - 1/2 then jsRound10 t :: keyframeLoop duration fuel (t + 1) else []

/-- Embedding of `computeKeyframes` from the useActorTracking hook: fixed
cadence timestamps starting at 0.5s stepping 1.0s while below
`duration - 0.5`, each rounded to 0.1s, plus possibly one keyframe near the
end at `max (duration - 1) 0.5`. -/
def computeKeyframes (duration : ℚ) : List ℚ :=
  let timestamps := keyframeLoop duration (⌈duration⌉.toNat + 1) (1/2)
  let endFrame := max (duration - 1) (1/2)
  match timestamps.getLast? with
  | none => timestamps ++ [jsRound10 endFrame]
  | some last => if last < endFrame - 1 then timestamps ++ [jsRound10 endFrame] else timestamps

/-- Keyframe schedule as the specification sentence words it: timestamps
`0.5 + k` for `k < duration - 1` (equivalently: starting at 0.5s, stepping
1.0s, while below `duration - 0.5`), each rounded to 0.1s, with one extra
keyframe at `max (duration - 1) 0.5` rounded to 0.1s, appended exactly when
the list is empty or its last timestamp is more than 1s below
`duration - 1`. -/
def specKeyframeSchedule (duration : ℚ) : List ℚ :=
  let base := (List.range ⌈duration - 1⌉.toNat).map (fun k : ℕ => jsRound10 (1/2 + (k : ℚ)))
  let extra := jsRound10 (max (duration - 1) (1/2))
  match base.getLast? with
  | none => base ++ [extra]
  | some last => if last < duration - 1 - 1 then base ++ [extra] else base

/-- World position in degrees, the `{ lat, lon }` pairs of the repository. -/
structure WorldPos where
  lat : ℚ
  lon : ℚ
deriving DecidableEq

/-- Pixel bounding box of a detection. -/
structure BBox where
  x_min : ℚ
  y_min : ℚ
  x_max : ℚ
  y_max : ℚ
deriving DecidableEq

/-- Embedding of the `DetectedActor` interface from src/types/actors.ts.
Actor types and confidences are modelled as strings. -/
structure DetectedActor where
  type : String
  label : String
  confidence : String
  bbox : BBox
  estimatedDistanceMeters : ℚ
  moving : Option Bool
  description : String
  worldPosition : WorldPos
  bearingFromCamera : ℚ
deriving DecidableEq

/-- Embedding of `ActorDetectionResult`: all detections at one keyframe. -/
structure ActorDetectionResult where
  actors : List DetectedActor
  timestamp : ℚ
  cameraPosition : WorldPos
  cameraBearing : ℚ
  fovDegrees : ℚ
  detectedAt : String
deriving DecidableEq

/-- Embedding of `ActorObservation`. -/
structure ActorObservation where
  timestamp : ℚ
  worldPosition : WorldPos
  bbox : BBox
  confidence : String
  description : String
deriving DecidableEq

/-- Embedding of `ActorTrack`. -/
structure ActorTrack where
  trackId : String
  type : String
  label : String
  color : String
  observations : List ActorObservation
  firstSeen : ℚ
  lastSeen : ℚ
deriving DecidableEq

/-- Embedding of `ActorTrackingResult`. -/
structure ActorTrackingResult where
  tracks : List ActorTrack
  keyframeTimestamps : List ℚ
  frameResults : List ActorDetectionResult
  eventId : String
deriving DecidableEq

/-- Embedding of `TrackingProgress` (status tag kept as a string). -/
structure TrackingProgress where
  currentFrame : ℕ
  totalFrames : ℕ
  status : String
  message : String
deriving DecidableEq

/-- The fixed 10 color palette `TRACK_COLORS` of actor-matching.ts. -/
def TRACK_COLORS : List String :=
  ["#3b82f6", "#ef4444", "#10b981", "#f59e0b", "#8b5cf6",
   "#ec4899", "#06b6d4", "#f97316", "#14b8a6", "#6366f1"]

/-- `MAX_MATCH_DISTANCE_M = 30` from actor-matching.ts. -/
def MAX_MATCH_DISTANCE_M : ℚ := 30

/-- `LABEL_SIMILARITY_WEIGHT = 0.3` from actor-matching.ts. -/
def LABEL_SIMILARITY_WEIGHT : ℚ := 3/10

/-- Model of the JavaScript `s.split (regex of whitespace runs)`: the maximal
runs of non-whitespace characters, except that a leading or trailing
whitespace run contributes one empty token (and the empty string yields one
empty token), matching `"".split`, `" a".split` and `"a ".split` behaviour.
Built from `String.split`, which cuts at every single whitespace character,
by dropping the empty tokens that come from interior runs. -/
def jsWhitespaceSplit (s : String) : List String :=
  match s.split Char.isWhitespace with
  | [] => [""]
  | [w] => [w]
  | w :: rest => w :: ((rest.dropLast.filter (fun x => x != "")) ++ [rest.getLastD ""])

/-- Embedding of `labelSimilarity` from actor-matching.ts: Jaccard overlap of
the lower-cased whitespace-tokenized word sets of the two labels. JavaScript
sets are modelled by deduplicated lists. -/
def labelSimilarity (a b : String) : ℚ :=
  let wordsA := (jsWhitespaceSplit a.toLower).dedup
  let wordsB := (jsWhitespaceSplit b.toLower).dedup
  if wordsA.length = 0 ∧ wordsB.length = 0 then 1
  else
    let overlap := (wordsA.filter (fun w => wordsB.contains w)).length
    let union := (wordsA ++ wordsB).dedup.length
    if union = 0 then 0 else (overlap : ℚ) / (union : ℚ)

/-- Embedding of the internal `OpenTrack` record of actor-matching.ts. -/
structure OpenTrack where
  trackId : String
  type : String
  label : String
  lastObservation : ActorObservation
  observations : List ActorObservation
deriving DecidableEq

/-- Candidate pair of the greedy matcher: indices into the open-track list
and the per-frame observation list, plus the matching cost. -/
structure Candidate where
  trackIdx : ℕ
  obsIdx : ℕ
  cost : ℚ
deriving DecidableEq

/-- Mutable state of the `buildTracks` frame loop. -/
structure BuildState where
  openTracks : List OpenTrack
  closedTracks : List OpenTrack
  nextId : ℕ
deriving DecidableEq

/-- Map with the element index, modelling an indexed `for` loop. -/
def idxMap (f : ℕ → α → β) : ℕ → List α → List β
  | _, [] => []
  | n, a :: l => f n a :: idxMap f (n + 1) l

/-- Filter-map with the element index. -/
def idxFilterMap (f : ℕ → α → Option β) : ℕ → List α → List β
  | _, [] => []
  | n, a :: l =>
    match f n a with
    | some b => b :: idxFilterMap f (n + 1) l
    | none => idxFilterMap f (n + 1) l

/-- Filter with the element index. -/
def idxFilter (p : ℕ → α → Bool) : ℕ → List α → List α
  | _, [] => []
  | n, a :: l => if p n a then a :: idxFilter p (n + 1) l else idxFilter p (n + 1) l

/-- Observation built from a detection of the current frame, as in the
`frame.actors.map` at the top of the `buildTracks` frame loop. -/
def mkObservation (ts : ℚ) (a : DetectedActor) : ActorObservation :=
  { timestamp := ts
    worldPosition := a.worldPosition
    bbox := a.bbox
    confidence := a.confidence
    description := a.description }

/-- Candidate generation of `buildTracks`: for every (open track, detection)
pair, skip it unless the actor type matches the track type (hard gate) and
the distance between the track last observation and the detection world
position is at most `MAX_MATCH_DISTANCE_M` (hard gate); otherwise record the
cost `dist - sim * LABEL_SIMILARITY_WEIGHT * MAX_MATCH_DISTANCE_M`. The
distance function `d` abstracts `haversineDistance`. -/
def candidateList (d : WorldPos → WorldPos → ℚ) (tracks : List OpenTrack)
    (pairs : List (DetectedActor × ActorObservation)) : List Candidate :=
  (idxMap (fun ti track =>
    idxFilterMap (fun oi p =>
      if p.1.type = track.type then
        let dist := d track.lastObservation.worldPosition p.2.worldPosition
        if dist ≤ MAX_MATCH_DISTANCE_M then
          some { trackIdx := ti, obsIdx := oi,
                 cost := dist - labelSimilarity track.label p.1.label *
                   LABEL_SIMILARITY_WEIGHT * MAX_MATCH_DISTANCE_M }
        else none
      else none) 0 pairs) 0 tracks).flatten

/-- Cost order on candidates, the comparator of `candidates.sort`. -/
def candLE (c₁ c₂ : Candidate) : Prop := c₁.cost ≤ c₂.cost

instance : DecidableRel candLE := fun c₁ c₂ => inferInstanceAs (Decidable (c₁.cost ≤ c₂.cost))

/-- Greedy assignment walk of `buildTracks`: traverse the cost-sorted
candidates, skipping pairs whose track or observation was already assigned
in this frame. Returns the chosen (track index, observation index) pairs in
assignment order; `matched` and `used` accumulate the assigned indices. -/
def greedyAssign : List Candidate → List ℕ → List ℕ → List (ℕ × ℕ)
  | [], _, _ => []
  | c :: rest, matched, used =>
    if c.trackIdx ∈ matched ∨ c.obsIdx ∈ used then greedyAssign rest matched used
    else (c.trackIdx, c.obsIdx) :: greedyAssign rest (c.trackIdx :: matched) (c.obsIdx :: used)

/-- The (actor, observation) pairs built at the top of the frame loop. -/
def framePairs (frame : ActorDetectionResult) : List (DetectedActor × ActorObservation) :=
  frame.actors.map (fun a => (a, mkObservation frame.timestamp a))

/-- The assignment chosen for one frame: greedy walk of the cost-sorted
candidate list, starting from empty matched and used sets. -/
def frameAsg (d : WorldPos → WorldPos → ℚ) (tracks : List OpenTrack)
    (pairs : List (DetectedActor × ActorObservation)) : List (ℕ × ℕ) :=
  greedyAssign (List.insertionSort candLE (candidateList d tracks pairs)) [] []

/-- Appending an observation to a track, `track.observations.push(obs)`
followed by `track.lastObservation = obs`. -/
def appendObs (t : OpenTrack) (o : ActorObservation) : OpenTrack :=
  { t with observations := t.observations ++ [o], lastObservation := o }

/-- Application of the greedy assignment to the open tracks: the track at
index `ti` that was assigned observation index `oi` gets that observation
appended and becomes its last observation; other tracks are unchanged. -/
def applyAssignment (tracks : List OpenTrack)
    (pairs : List (DetectedActor × ActorObservation)) (asg : List (ℕ × ℕ)) : List OpenTrack :=
  idxMap (fun ti track =>
    match asg.lookup ti with
    | some oi =>
      match pairs.get? oi with
      | some p => appendObs track p.2
      | none => track
    | none => track) 0 tracks

/-- The pairs of the frame whose observation index was not assigned
(`!usedObs.has(oi)`). -/
def unmatchedOf (pairs : List (DetectedActor × ActorObservation))
    (asg : List (ℕ × ℕ)) : List (DetectedActor × ActorObservation) :=
  idxFilter (fun oi _ => !((asg.map Prod.snd).contains oi)) 0 pairs

/-- A track opened for an unmatched detection, seeded with one observation. -/
def newTrack (id : ℕ) (p : DetectedActor × ActorObservation) : OpenTrack :=
  { trackId := "track-" ++ toString id
    type := p.1.type
    label := p.1.label
    lastObservation := p.2
    observations := [p.2] }

/-- One iteration of the `buildTracks` frame loop: build the observation
pairs, generate and cost-sort the candidates, greedily assign, close the
unmatched open tracks (in reverse index order, as the source loop walks the
array backwards), and open a new track for every unmatched detection with
sequential `track-N` identifiers. -/
def stepFrame (d : WorldPos → WorldPos → ℚ) (st : BuildState)
    (frame : ActorDetectionResult) : BuildState :=
  let pairs := framePairs frame
  let asg := frameAsg d st.openTracks pairs
  let updated := applyAssignment st.openTracks pairs asg
  { openTracks := idxFilter (fun ti _ => (asg.lookup ti).isSome) 0 updated ++
      idxMap (fun j p => newTrack (st.nextId + j) p) 0 (unmatchedOf pairs asg)
    closedTracks := st.closedTracks ++
      (idxFilter (fun ti _ => !(asg.lookup ti).isSome) 0 updated).reverse
    nextId := st.nextId + (unmatchedOf pairs asg).length }

/-- Frame order used by the defensive sort of `buildTracks`. -/
def frameLE (a b : ActorDetectionResult) : Prop := a.timestamp ≤ b.timestamp

instance : DecidableRel frameLE := fun a b => inferInstanceAs (Decidable (a.timestamp ≤ b.timestamp))

instance : IsTotal ActorDetectionResult frameLE := ⟨fun a b => le_total a.timestamp b.timestamp⟩

instance : IsTrans ActorDetectionResult frameLE := ⟨fun _ _ _ => le_trans⟩

/-- Defensive stable sort of the input frames by ascending timestamp. -/
def sortFrames (frames : List ActorDetectionResult) : List ActorDetectionResult :=
  List.insertionSort frameLE frames

/-- The frame loop of `buildTracks`, starting from no tracks and `nextId = 1`. -/
def runFrames (d : WorldPos → WorldPos → ℚ) (frames : List ActorDetectionResult) : BuildState :=
  frames.foldl (stepFrame d) { openTracks := [], closedTracks := [], nextId := 1 }

/-- The closed-track list after the frame loop: the tracks closed during the
loop followed by the remaining open tracks (`closedTracks.push(...openTracks)`). -/
def closedTrackList (d : WorldPos → WorldPos → ℚ)
    (frames : List ActorDetectionResult) : List OpenTrack :=
  (runFrames d frames).closedTracks ++ (runFrames d frames).openTracks

/-- Conversion of an internal track to an `ActorTrack`, as in the final
`closedTracks.map` of `buildTracks`. The source reads `observations[0]` and
`observations[len-1]` directly; both defaults below are unreachable because
every track holds at least one observation. -/
def toActorTrack (color : String) (t : OpenTrack) : ActorTrack :=
  { trackId := t.trackId
    type := t.type
    label := t.label
    color := color
    observations := t.observations
    firstSeen := match t.observations with | [] => 0 | o :: _ => o.timestamp
    lastSeen := ((t.observations.getLast?).map (fun o => o.timestamp)).getD 0 }

/-- Color assignment of `buildTracks`: the track at index `i` of the
closed-track list gets `TRACK_COLORS[i % TRACK_COLORS.length]`. -/
def coloredTracks (d : WorldPos → WorldPos → ℚ)
    (frames : List ActorDetectionResult) : List ActorTrack :=
  idxMap (fun i t => toActorTrack (TRACK_COLORS.getD (i % TRACK_COLORS.length) "") t) 0
    (closedTrackList d frames)

/-- Final order of the returned tracks, `(a, b) => a.firstSeen - b.firstSeen`. -/
def trackLE (a b : ActorTrack) : Prop := a.firstSeen ≤ b.firstSeen

instance : DecidableRel trackLE := fun a b => inferInstanceAs (Decidable (a.firstSeen ≤ b.firstSeen))

instance : IsTotal ActorTrack trackLE := ⟨fun a b => le_total a.firstSeen b.firstSeen⟩

instance : IsTrans ActorTrack trackLE := ⟨fun _ _ _ => le_trans⟩

/-- Embedding of `buildTracks` from actor-matching.ts, with the haversine
distance abstracted as the parameter `d` (the source fixes
`d = haversineDistance`, pure float trigonometry; every property proved for
all `d` holds for that instance). -/
def buildTracks (d : WorldPos → WorldPos → ℚ) (frameResults : List ActorDetectionResult)
    (eventId : String) : ActorTrackingResult :=
  let sorted := sortFrames frameResults
  { tracks := List.insertionSort trackLE (coloredTracks d sorted)
    keyframeTimestamps := sorted.map (fun f => f.timestamp)
    frameResults := sorted
    eventId := eventId }

/-- Raw detection as returned by the vision collaborator in
src/app/api/detect-actors/route.ts, before projection. -/
structure RawActor where
  type : String
  label : String
  confidence : String
  bbox : BBox
  estimatedDistanceMeters : ℚ
  moving : Option Bool
  description : String
deriving DecidableEq

/-- Embedding of the `rawResult.actors.map` body of the detect-actors route:
the estimated distance is clamped to [2, 200] with
`Math.max(2, Math.min(200, raw.estimatedDistanceMeters))` and the clamped
value is what `projectActorToWorld` receives. `project` abstracts
`projectActorToWorld` with the camera parameters of the request already
applied (pure float trigonometry); it returns the world position and the
absolute bearing. -/
def mapDetectedActor (project : BBox → ℚ → WorldPos × ℚ) (raw : RawActor) : DetectedActor :=
  let clampedDistance := max 2 (min 200 raw.estimatedDistanceMeters)
  let projected := project raw.bbox clampedDistance
  { type := raw.type
    label := raw.label
    confidence := raw.confidence
    bbox := raw.bbox
    estimatedDistanceMeters := clampedDistance
    moving := raw.moving
    description := raw.description
    worldPosition := projected.1
    bearingFromCamera := projected.2 }

/-- Outcome of the session-cache check at the top of the `track` function of
the useActorTracking hook. -/
inductive CacheOutcome where
  | hit (cached : ActorTrackingResult)
  | missKeep
  | missRemove
deriving DecidableEq

/-- Embedding of the session-cache check of the `track` function. The stored
localStorage state is modelled as `none` (no entry), `some none` (an entry
whose JSON fails to parse; the exception is caught and the entry is left in
place), or `some (some cached)` (a parsed `ActorTrackingResult`). The cached
session is used exactly when its stored keyframe count equals the count of
the freshly computed schedule; on a mismatch the stale entry is removed
(`missRemove`) and the run recomputes. -/
def checkSessionCache (stored : Option (Option ActorTrackingResult))
    (keyframeCount : ℕ) : CacheOutcome :=
  match stored with
  | none => .missKeep
  | some none => .missKeep
  | some (some cached) =>
    if cached.keyframeTimestamps.length = keyframeCount then .hit cached else .missRemove

/-- Per-keyframe gathering loop of the `track` function. `lookup` models the
per-frame detection cache (localStorage), `detect` models the fetch of
/api/detect-actors: `Except.error` is a non-success response or a transport
error. On the first failing keyframe the whole run aborts with the error
message and the number of frames completed so far (`frameResults.length`). -/
def gatherFrames (lookup : ℚ → Option ActorDetectionResult)
    (detect : ℚ → Except String ActorDetectionResult) :
    List ℚ → List ActorDetectionResult → Except (String × ℕ) (List ActorDetectionResult)
  | [], acc => .ok acc
  | t :: rest, acc =>
    match lookup t with
    | some fr => gatherFrames lookup detect rest (acc ++ [fr])
    | none =>
      match detect t with
      | .ok fr => gatherFrames lookup detect rest (acc ++ [fr])
      | .error e => .error (e, acc.length)

/-- Embedding of the post-cache-check part of the `track` function: gather a
frame result per keyframe, then hand the accumulated list to `buildTracks`.
The first component is the produced tracking session, which in the source is
also exactly what is written to the session cache: it is `none` whenever any
keyframe fails, so no session is produced or cached from the frames gathered
before the failure. The second component is the final progress report; on
failure its `currentFrame` is the number of frames completed so far. -/
def runTrack (d : WorldPos → WorldPos → ℚ) (lookup : ℚ → Option ActorDetectionResult)
    (detect : ℚ → Except String ActorDetectionResult) (keyframes : List ℚ)
    (eventId : String) : Option ActorTrackingResult × TrackingProgress :=
  match gatherFrames lookup detect keyframes [] with
  | .error (msg, completed) =>
    (none,
     { currentFrame := completed
       totalFrames := keyframes.length
       status := "error"
       message := msg })
  | .ok frameResults =>
    let result := buildTracks d frameResults eventId
    (some result,
     { currentFrame := keyframes.length
       totalFrames := keyframes.length
       status := "done"
       message := "Tracked " ++ toString result.tracks.length ++
         (if result.tracks.length ≠ 1 then " actors across " else " actor across ") ++
         toString keyframes.length ++ " frames" })

/-- Distance function used for concrete evaluations: 0 on equal positions
(where the haversine distance is exactly 0 as well) and 1000 meters on
distinct positions. In every concrete input below, the distance is only ever
taken between equal positions, so the evaluations agree with the haversine
behaviour of the source. -/
def discreteDist (p q : WorldPos) : ℚ := if p = q then 0 else 1000

/-- Concrete world position used by the concrete inputs. -/
def posP : WorldPos := { lat := 37, lon := -122 }

/-- A second, distinct world position. -/
def posQ : WorldPos := { lat := 38, lon := -121 }

/-- Concrete car detection at a given position. -/
def carActor (p : WorldPos) : DetectedActor :=
  { type := "car", label := "car", confidence := "high"
    bbox := { x_min := 0, y_min := 0, x_max := 1, y_max := 1 }
    estimatedDistanceMeters := 10, moving := some true, description := "a car"
    worldPosition := p, bearingFromCamera := 0 }

/-- Concrete pedestrian detection at a given position. -/
def pedActor (p : WorldPos) : DetectedActor :=
  { type := "pedestrian", label := "person", confidence := "high"
    bbox := { x_min := 0, y_min := 0, x_max := 1, y_max := 1 }
    estimatedDistanceMeters := 5, moving := some false, description := "a person"
    worldPosition := p, bearingFromCamera := 0 }

/-- Concrete frame at a given timestamp. -/
def mkFrame (ts : ℚ) (actors : List DetectedActor) : ActorDetectionResult :=
  { actors := actors, timestamp := ts, cameraPosition := posP
    cameraBearing := 0, fovDegrees := 142, detectedAt := "" }

/-- Scenario of the track-closure claim: a car in frame 1, an empty frame 2,
a car at the same world position in frame 3. -/
def gapFrames : List ActorDetectionResult :=
  [mkFrame 1 [carActor posP], mkFrame 2 [], mkFrame 3 [carActor posP]]

/-- Two frames with the same timestamp, each with a car at the same world
position. -/
def dupTimestampFrames : List ActorDetectionResult :=
  [mkFrame 1 [carActor posP], mkFrame 1 [carActor posP]]

/-- Frames in which the track opened second (the pedestrian) is closed
first, so closure order differs from ascending firstSeen order. -/
def colorFrames : List ActorDetectionResult :=
  [mkFrame 1 [carActor posP],
   mkFrame 2 [carActor posP, pedActor posQ],
   mkFrame 3 [carActor posP]]

/-- The observation of the car detection at a given timestamp. -/
def obsCar (ts : ℚ) : ActorObservation := mkObservation ts (carActor posP)

/-- The first track produced by `buildTracks` on `gapFrames`. -/
def gapTrack1 : ActorTrack :=
  { trackId := "track-1", type := "car", label := "car", color := "#3b82f6"
    observations := [obsCar 1], firstSeen := 1, lastSeen := 1 }

/-- Constant projection used to instantiate `mapDetectedActor` concretely. -/
def projConst : BBox → ℚ → WorldPos × ℚ := fun _ _ => (posP, 0)

/-- Raw detection whose estimated distance is below the 2 m clamp. -/
def rawNear : RawActor :=
  { type := "car", label := "car", confidence := "high"
    bbox := { x_min := 0, y_min := 0, x_max := 1, y_max := 1 }
    estimatedDistanceMeters := 1, moving := some true, description := "a car" }

/-- Per-frame cache holding a frame for timestamp 1 only. -/
def cacheOne : ℚ → Option ActorDetectionResult :=
  fun s => if s = 1 then some (mkFrame 1 []) else none

/-- Detection oracle that always fails. -/
def detectFail : ℚ → Except String ActorDetectionResult := fun _ => .error "boom"

/-- A concrete stored session with two keyframe timestamps. -/
def sessionA : ActorTrackingResult :=
  { tracks := [], keyframeTimestamps := [1, 2], frameResults := [], eventId := "e" }

/-- Timestamps of the observations of a track. -/
def obsTs (t : OpenTrack) : List ℚ := t.observations.map (fun o => o.timestamp)

/-- Observation `o` is the observation of some detection of type `ty` in one
of the frames of `F`. -/
def ObsFrom (F : List ActorDetectionResult) (ty : String) (o : ActorObservation) : Prop :=
  ∃ f ∈ F, ∃ a ∈ f.actors, a.type = ty ∧ o = mkObservation f.timestamp a

/-- Well-formedness of one track relative to the distance function `d` and
the frame list `F`: it has at least one observation, its `lastObservation`
is the last entry of its observation list, consecutive observations are at
most `MAX_MATCH_DISTANCE_M` apart under `d`, and every observation comes
from a detection of the frames whose type equals the track type. -/
structure TrackWF (d : WorldPos → WorldPos → ℚ) (F : List ActorDetectionResult)
    (t : OpenTrack) : Prop where
  nonempty : t.observations ≠ []
  last_eq : t.observations.getLast? = some t.lastObservation
  chain : List.Chain'
    (fun o₁ o₂ => d o₁.worldPosition o₂.worldPosition ≤ MAX_MATCH_DISTANCE_M) t.observations
  prov : ∀ o ∈ t.observations, ObsFrom F t.type o

/-- Invariant of the `buildTracks` frame loop, where `P` is the timestamp
list of the frames processed so far: every track is well formed; an open
track was matched in every frame since it was opened, so its timestamps are
a suffix of `P`; a closed track saw a contiguous run of frames, so its
timestamps are an infix of `P`. -/
structure StateWF (d : WorldPos → WorldPos → ℚ) (F : List ActorDetectionResult)
    (P : List ℚ) (st : BuildState) : Prop where
  open_wf : ∀ t ∈ st.openTracks, TrackWF d F t
  open_suffix : ∀ t ∈ st.openTracks, obsTs t <:+ P
  closed_wf : ∀ t ∈ st.closedTracks, TrackWF d F t
  closed_contig : ∀ t ∈ st.closedTracks, obsTs t <:+: P

/-!
Helper lemmas about the indexed list combinators, the assignment lookup and
the greedy matcher.
-/

theorem mem_idxMap {α β : Type} {f : ℕ → α → β} :
    ∀ {n : ℕ} {l : List α} {b : β}, b ∈ idxMap f n l →
      ∃ i a, l.get? i = some a ∧ b = f (n + i) a := by
  intro n l
  induction l generalizing n with
  | nil => intro b hb; simp [idxMap] at hb
  | cons x xs ih =>
    intro b hb
    simp only [idxMap, List.mem_cons] at hb
    rcases hb with hb | hb
    · exact ⟨0, x, rfl, by simpa using hb⟩
    · rcases ih hb with ⟨i, a, hget, he⟩
      refine ⟨i + 1, a, hget, ?_⟩
      rw [show n + (i + 1) = n + 1 + i by omega]; exact he

theorem idxMap_length {α β : Type} {f : ℕ → α → β} :
    ∀ {n : ℕ} {l : List α}, (idxMap f n l).length = l.length := by
  intro n l
  induction l generalizing n with
  | nil => rfl
  | cons x xs ih => simp [idxMap, ih]

theorem idxMap_get? {α β : Type} {f : ℕ → α → β} :
    ∀ {n i : ℕ} {l : List α}, (idxMap f n l).get? i = (l.get? i).map (f (n + i)) := by
  intro n i l
  induction l generalizing n i with
  | nil => simp [idxMap]
  | cons x xs ih =>
    cases i with
    | zero => simp [idxMap]
    | succ j =>
      show (idxMap f (n + 1) xs).get? j = (xs.get? j).map (f (n + (j + 1)))
      rw [show n + (j + 1) = n + 1 + j by omega]
      exact ih

theorem mem_idxFilterMap {α β : Type} {f : ℕ → α → Option β} :
    ∀ {n : ℕ} {l : List α} {b : β}, b ∈ idxFilterMap f n l →
      ∃ i a, l.get? i = some a ∧ f (n + i) a = some b := by
  intro n l
  induction l generalizing n with
  | nil => intro b hb; simp [idxFilterMap] at hb
  | cons x xs ih =>
    intro b hb
    rw [idxFilterMap] at hb
    rcases hfx : f n x with _ | y
    · rw [hfx] at hb
      rcases ih hb with ⟨i, a, hget, he⟩
      refine ⟨i + 1, a, hget, ?_⟩
      rw [← he]; congr 1; omega
    · rw [hfx] at hb
      rcases List.mem_cons.mp hb with rfl | hb
      · exact ⟨0, x, rfl, by simpa using hfx⟩
      · rcases ih hb with ⟨i, a, hget, he⟩
        refine ⟨i + 1, a, hget, ?_⟩
        rw [← he]; congr 1; omega

theorem mem_idxFilter {α : Type} {p : ℕ → α → Bool} :
    ∀ {n : ℕ} {l : List α} {a : α}, a ∈ idxFilter p n l → a ∈ l := by
  intro n l
  induction l generalizing n with
  | nil => intro a ha; simp [idxFilter] at ha
  | cons x xs ih =>
    intro a ha
    rw [idxFilter] at ha
    by_cases hp : p n x
    · rw [if_pos hp] at ha
      rcases List.mem_cons.mp ha with rfl | ha
      · exact List.mem_cons_self _ _
      · exact List.mem_cons_of_mem _ (ih ha)
    · rw [if_neg hp] at ha
      exact List.mem_cons_of_mem _ (ih ha)

theorem mem_idxFilter_idxMap {α β : Type} {p : ℕ → β → Bool} {f : ℕ → α → β} :
    ∀ {n : ℕ} {l : List α} {b : β}, b ∈ idxFilter p n (idxMap f n l) →
      ∃ i a, l.get? i = some a ∧ b = f (n + i) a ∧ p (n + i) (f (n + i) a) = true := by
  intro n l
  induction l generalizing n with
  | nil => intro b hb; simp [idxMap, idxFilter] at hb
  | cons x xs ih =>
    intro b hb
    rw [idxMap, idxFilter] at hb
    by_cases hp : p n (f n x)
    · rw [if_pos hp] at hb
      rcases List.mem_cons.mp hb with rfl | hb
      · exact ⟨0, x, rfl, by simp, by simpa using hp⟩
      · rcases ih hb with ⟨i, a, hget, he, hpa⟩
        refine ⟨i + 1, a, hget, ?_, ?_⟩
        · rw [he]; congr 1; omega
        · rw [show n + (i + 1) = n + 1 + i by omega]; exact hpa
    · rw [if_neg hp] at hb
      rcases ih hb with ⟨i, a, hget, he, hpa⟩
      refine ⟨i + 1, a, hget, ?_, ?_⟩
      · rw [he]; congr 1; omega
      · rw [show n + (i + 1) = n + 1 + i by omega]; exact hpa

theorem lookup_mem {l : List (ℕ × ℕ)} {k v : ℕ} (h : l.lookup k = some v) : (k, v) ∈ l := by
  induction l with
  | nil => simp [List.lookup] at h
  | cons q t ih =>
    rcases q with ⟨a, b⟩
    rw [List.lookup] at h
    by_cases hk : k = a
    · subst hk
      rw [beq_self_eq_true] at h
      cases h
      exact List.mem_cons_self _ _
    · rw [beq_false_of_ne hk] at h
      exact List.mem_cons_of_mem _ (ih h)

theorem lookup_isSome_of_mem_fst {l : List (ℕ × ℕ)} {k : ℕ}
    (h : k ∈ l.map Prod.fst) : (l.lookup k).isSome := by
  induction l with
  | nil => simp at h
  | cons q t ih =>
    rcases q with ⟨a, b⟩
    rcases List.mem_cons.mp h with rfl | h
    · simp [List.lookup]
    · rw [List.lookup]
      by_cases hk : k = a
      · subst hk; simp
      · have hne : (k == a) = false := beq_false_of_ne hk
        rw [hne]
        exact ih h

theorem greedyAssign_mem :
    ∀ {cs : List Candidate} {m u : List ℕ} {ti oi : ℕ},
      (ti, oi) ∈ greedyAssign cs m u → ∃ c ∈ cs, c.trackIdx = ti ∧ c.obsIdx = oi := by
  intro cs
  induction cs with
  | nil => intro m u ti oi h; simp [greedyAssign] at h
  | cons c rest ih =>
    intro m u ti oi h
    rw [greedyAssign] at h
    by_cases hc : c.trackIdx ∈ m ∨ c.obsIdx ∈ u
    · rw [if_pos hc] at h
      rcases ih h with ⟨c₂, hc₂, he⟩
      exact ⟨c₂, List.mem_cons_of_mem _ hc₂, he⟩
    · rw [if_neg hc] at h
      rcases List.mem_cons.mp h with he | h
      · cases he
        exact ⟨c, List.mem_cons_self _ _, rfl, rfl⟩
      · rcases ih h with ⟨c₂, hc₂, he⟩
        exact ⟨c₂, List.mem_cons_of_mem _ hc₂, he⟩

theorem greedyAssign_fst_nodup :
    ∀ (cs : List Candidate) (m u : List ℕ),
      ((greedyAssign cs m u).map Prod.fst).Nodup ∧
        ∀ k ∈ (greedyAssign cs m u).map Prod.fst, k ∉ m := by
  intro cs
  induction cs with
  | nil => intro m u; simp [greedyAssign]
  | cons c rest ih =>
    intro m u
    rw [greedyAssign]
    by_cases hc : c.trackIdx ∈ m ∨ c.obsIdx ∈ u
    · rw [if_pos hc]; exact ih m u
    · rw [if_neg hc]
      push_neg at hc
      rcases ih (c.trackIdx :: m) (c.obsIdx :: u) with ⟨hnd, hmem⟩
      refine ⟨?_, ?_⟩
      · simp only [List.map_cons, List.nodup_cons]
        exact ⟨fun hk => (hmem _ hk) (List.mem_cons_self _ _), hnd⟩
      · intro k hk
        rcases List.mem_cons.mp hk with rfl | hk
        · exact hc.1
        · intro hkm
          exact (hmem _ hk) (List.mem_cons_of_mem _ hkm)

theorem greedyAssign_snd_nodup :
    ∀ (cs : List Candidate) (m u : List ℕ),
      ((greedyAssign cs m u).map Prod.snd).Nodup ∧
        ∀ k ∈ (greedyAssign cs m u).map Prod.snd, k ∉ u := by
  intro cs
  induction cs with
  | nil => intro m u; simp [greedyAssign]
  | cons c rest ih =>
    intro m u
    rw [greedyAssign]
    by_cases hc : c.trackIdx ∈ m ∨ c.obsIdx ∈ u
    · rw [if_pos hc]; exact ih m u
    · rw [if_neg hc]
      push_neg at hc
      rcases ih (c.trackIdx :: m) (c.obsIdx :: u) with ⟨hnd, hmem⟩
      refine ⟨?_, ?_⟩
      · simp only [List.map_cons, List.nodup_cons]
        exact ⟨fun hk => (hmem _ hk) (List.mem_cons_self _ _), hnd⟩
      · intro k hk
        rcases List.mem_cons.mp hk with rfl | hk
        · exact hc.2
        · intro hku
          exact (hmem _ hk) (List.mem_cons_of_mem _ hku)

theorem candidateList_sound {d : WorldPos → WorldPos → ℚ} {tracks : List OpenTrack}
    {pairs : List (DetectedActor × ActorObservation)} {c : Candidate}
    (hc : c ∈ candidateList d tracks pairs) :
    ∃ tr p, tracks.get? c.trackIdx = some tr ∧ pairs.get? c.obsIdx = some p ∧
      p.1.type = tr.type ∧
      d tr.lastObservation.worldPosition p.2.worldPosition ≤ MAX_MATCH_DISTANCE_M := by
  unfold candidateList at hc
  rcases List.mem_flatten.mp hc with ⟨sub, hsub, hcsub⟩
  rcases mem_idxMap hsub with ⟨ti, tr, hget, rfl⟩
  rcases mem_idxFilterMap hcsub with ⟨oi, p, hp, hf⟩
  by_cases hty : p.1.type = tr.type
  · rw [if_pos hty] at hf
    by_cases hd : d tr.lastObservation.worldPosition p.2.worldPosition ≤ MAX_MATCH_DISTANCE_M
    · rw [if_pos hd] at hf
      cases hf
      exact ⟨tr, p, by simpa using hget, by simpa using hp, hty, hd⟩
    · rw [if_neg hd] at hf; cases hf
  · rw [if_neg hty] at hf; cases hf

theorem frameAsg_gate {d : WorldPos → WorldPos → ℚ} {tracks : List OpenTrack}
    {pairs : List (DetectedActor × ActorObservation)} {ti oi : ℕ}
    (h : (ti, oi) ∈ frameAsg d tracks pairs) :
    ∃ tr p, tracks.get? ti = some tr ∧ pairs.get? oi = some p ∧
      p.1.type = tr.type ∧
      d tr.lastObservation.worldPosition p.2.worldPosition ≤ MAX_MATCH_DISTANCE_M := by
  rcases greedyAssign_mem h with ⟨c, hc, h1, h2⟩
  rcases candidateList_sound ((List.mem_insertionSort candLE).mp hc) with
    ⟨tr, p, hget, hp, hty, hd⟩
  subst h1; subst h2
  exact ⟨tr, p, hget, hp, hty, hd⟩

theorem framePairs_mem {frame : ActorDetectionResult}
    {p : DetectedActor × ActorObservation} (hp : p ∈ framePairs frame) :
    p.1 ∈ frame.actors ∧ p.2 = mkObservation frame.timestamp p.1 := by
  rcases List.mem_map.mp hp with ⟨a, ha, rfl⟩
  exact ⟨ha, rfl⟩

theorem mem_stepFrame_open {d : WorldPos → WorldPos → ℚ} {st : BuildState}
    {frame : ActorDetectionResult} {u : OpenTrack}
    (hu : u ∈ (stepFrame d st frame).openTracks) :
    (∃ ti oi tr p, st.openTracks.get? ti = some tr ∧
       (ti, oi) ∈ frameAsg d st.openTracks (framePairs frame) ∧
       (framePairs frame).get? oi = some p ∧ u = appendObs tr p.2) ∨
    (∃ j p, (unmatchedOf (framePairs frame)
        (frameAsg d st.openTracks (framePairs frame))).get? j = some p ∧
       u = newTrack (st.nextId + j) p) := by
  have hu2 : u ∈ idxFilter
      (fun ti _ => ((frameAsg d st.openTracks (framePairs frame)).lookup ti).isSome) 0
      (idxMap (fun ti track =>
        match (frameAsg d st.openTracks (framePairs frame)).lookup ti with
        | some oi =>
          match (framePairs frame).get? oi with
          | some p => appendObs track p.2
          | none => track
        | none => track) 0 st.openTracks) ++
      idxMap (fun j p => newTrack (st.nextId + j) p) 0
        (unmatchedOf (framePairs frame) (frameAsg d st.openTracks (framePairs frame))) := by
    simpa [stepFrame, applyAssignment] using hu
  rcases List.mem_append.mp hu2 with h1 | h2
  · left
    rcases mem_idxFilter_idxMap h1 with ⟨i, tr, hget, hbody, hpred⟩
    simp only [Nat.zero_add] at hbody hpred
    rcases hlk : (frameAsg d st.openTracks (framePairs frame)).lookup i with _ | oi
    · rw [hlk] at hpred; simp at hpred
    · have hmem := lookup_mem hlk
      rcases frameAsg_gate hmem with ⟨tr0, p0, hget0, hp0, hty0, hd0⟩
      have htr : tr0 = tr := by
        rw [hget] at hget0; exact (Option.some.inj hget0).symm
      subst htr
      refine ⟨i, oi, tr0, p0, hget, hmem, hp0, ?_⟩
      rw [hbody]
      simp only [hlk, hp0]
  · right
    rcases mem_idxMap h2 with ⟨j, p, hget, hbody⟩
    exact ⟨j, p, hget, by simpa using hbody⟩

theorem mem_stepFrame_closed {d : WorldPos → WorldPos → ℚ} {st : BuildState}
    {frame : ActorDetectionResult} {u : OpenTrack}
    (hu : u ∈ (stepFrame d st frame).closedTracks) :
    u ∈ st.closedTracks ∨ u ∈ st.openTracks := by
  have hu2 : u ∈ st.closedTracks ++
      (idxFilter
        (fun ti _ => !((frameAsg d st.openTracks (framePairs frame)).lookup ti).isSome) 0
        (idxMap (fun ti track =>
          match (frameAsg d st.openTracks (framePairs frame)).lookup ti with
          | some oi =>
            match (framePairs frame).get? oi with
            | some p => appendObs track p.2
            | none => track
          | none => track) 0 st.openTracks)).reverse := by
    simpa [stepFrame, applyAssignment] using hu
  rcases List.mem_append.mp hu2 with h | h
  · exact Or.inl h
  · right
    have h2 := List.mem_reverse.mp h
    rcases mem_idxFilter_idxMap h2 with ⟨i, tr, hget, hbody, hpred⟩
    simp only [Nat.zero_add] at hbody hpred
    rcases hlk : (frameAsg d st.openTracks (framePairs frame)).lookup i with _ | oi
    · rw [hbody]
      simp only [hlk]
      exact List.get?_mem hget
    · rw [hlk] at hpred; simp at hpred

theorem stepFrame_wf {d : WorldPos → WorldPos → ℚ} {F : List ActorDetectionResult}
    {P : List ℚ} {st : BuildState} {frame : ActorDetectionResult}
    (hf : frame ∈ F) (h : StateWF d F P st) :
    StateWF d F (P ++ [frame.timestamp]) (stepFrame d st frame) := by
  have pair_ts : ∀ {p : DetectedActor × ActorObservation}, p ∈ framePairs frame →
      p.2.timestamp = frame.timestamp := by
    intro p hp
    rw [(framePairs_mem hp).2]
    rfl
  have open_cases := fun {u} (hu : u ∈ (stepFrame d st frame).openTracks) =>
    mem_stepFrame_open hu
  constructor
  · -- open_wf
    intro u hu
    rcases open_cases hu with ⟨ti, oi, tr, p, hget, hasg, hp, rfl⟩ | ⟨j, p, hget, rfl⟩
    · have htr : tr ∈ st.openTracks := List.get?_mem hget
      have hwf := h.open_wf tr htr
      rcases frameAsg_gate hasg with ⟨tr0, p0, hget0, hp0, hty0, hd0⟩
      have e1 : tr0 = tr := by rw [hget] at hget0; exact (Option.some.inj hget0).symm
      have e2 : p0 = p := by rw [hp] at hp0; exact (Option.some.inj hp0).symm
      subst e1; subst e2
      have hpmem : p0 ∈ framePairs frame := List.get?_mem hp
      constructor
      · simp [appendObs]
      · simp [appendObs, List.getLast?_concat]
      · show List.Chain' _ (tr0.observations ++ [p0.2])
        rw [List.chain'_append]
        refine ⟨hwf.chain, List.chain'_singleton _, ?_⟩
        intro x hx y hy
        rw [hwf.last_eq] at hx
        cases hx
        cases hy
        exact hd0
      · intro o ho
        rcases List.mem_append.mp ho with ho | ho
        · exact hwf.prov o ho
        · rcases List.mem_singleton.mp ho with rfl
          refine ⟨frame, hf, p0.1, (framePairs_mem hpmem).1, hty0, (framePairs_mem hpmem).2⟩
    · have hpmem : p ∈ framePairs frame :=
        mem_idxFilter (List.get?_mem hget)
      constructor
      · simp [newTrack]
      · simp [newTrack]
      · exact List.chain'_singleton _
      · intro o ho
        rcases List.mem_singleton.mp ho with rfl
        exact ⟨frame, hf, p.1, (framePairs_mem hpmem).1, rfl, (framePairs_mem hpmem).2⟩
  · -- open_suffix
    intro u hu
    rcases open_cases hu with ⟨ti, oi, tr, p, hget, hasg, hp, rfl⟩ | ⟨j, p, hget, rfl⟩
    · have htr : tr ∈ st.openTracks := List.get?_mem hget
      have hpmem : p ∈ framePairs frame := List.get?_mem hp
      rcases h.open_suffix tr htr with ⟨q, hq⟩
      refine ⟨q, ?_⟩
      show q ++ obsTs (appendObs tr p.2) = P ++ [frame.timestamp]
      have : obsTs (appendObs tr p.2) = obsTs tr ++ [p.2.timestamp] := by
        simp [obsTs, appendObs]
      rw [this, pair_ts hpmem, ← List.append_assoc, hq]
    · have hpmem : p ∈ framePairs frame :=
        mem_idxFilter (List.get?_mem hget)
      refine ⟨P, ?_⟩
      show P ++ obsTs (newTrack (st.nextId + j) p) = P ++ [frame.timestamp]
      have : obsTs (newTrack (st.nextId + j) p) = [p.2.timestamp] := by
        simp [obsTs, newTrack]
      rw [this, pair_ts hpmem]
  · -- closed_wf
    intro u hu
    rcases mem_stepFrame_closed hu with hc | ho
    · exact h.closed_wf u hc
    · exact h.open_wf u ho
  · -- closed_contig
    intro u hu
    rcases mem_stepFrame_closed hu with hc | ho
    · rcases h.closed_contig u hc with ⟨s, t, hst⟩
      exact ⟨s, t ++ [frame.timestamp], by rw [← hst]; simp [List.append_assoc]⟩
    · rcases h.open_suffix u ho with ⟨q, hq⟩
      exact ⟨q, [frame.timestamp], by rw [← hq]⟩

theorem foldl_wf {d : WorldPos → WorldPos → ℚ} {F : List ActorDetectionResult} :
    ∀ (l : List ActorDetectionResult) {P : List ℚ} {st : BuildState},
      (∀ f ∈ l, f ∈ F) → StateWF d F P st →
      StateWF d F (P ++ l.map (fun f => f.timestamp)) (l.foldl (stepFrame d) st) := by
  intro l
  induction l with
  | nil => intro P st _ h; simpa using h
  | cons fr rest ih =>
    intro P st hl h
    have h1 := stepFrame_wf (hl fr (List.mem_cons_self _ _)) h
    have h2 := ih (fun f hf => hl f (List.mem_cons_of_mem _ hf)) h1
    simpa [List.append_assoc] using h2

theorem runFrames_wf (d : WorldPos → WorldPos → ℚ) (frames : List ActorDetectionResult) :
    StateWF d frames (frames.map (fun f => f.timestamp)) (runFrames d frames) := by
  have h0 : StateWF d frames [] { openTracks := [], closedTracks := [], nextId := 1 } := by
    constructor <;> intro t ht <;> simp at ht
  have h1 := foldl_wf (F := frames) frames (fun _ hf => hf) h0
  simpa [runFrames] using h1

theorem closedTrackList_sound {d : WorldPos → WorldPos → ℚ} {frames : List ActorDetectionResult} :
    ∀ t ∈ closedTrackList d frames,
      TrackWF d frames t ∧ obsTs t <:+: frames.map (fun f => f.timestamp) := by
  intro t ht
  have hwf := runFrames_wf d frames
  rcases List.mem_append.mp (by simpa [closedTrackList] using ht) with h | h
  · exact ⟨hwf.closed_wf t h, hwf.closed_contig t h⟩
  · refine ⟨hwf.open_wf t h, ?_⟩
    rcases hwf.open_suffix t h with ⟨q, hq⟩
    exact ⟨q, [], by simp [hq]⟩

theorem buildTracks_shape {d : WorldPos → WorldPos → ℚ} {frames : List ActorDetectionResult}
    {eid : String} : ∀ t ∈ (buildTracks d frames eid).tracks,
      ∃ u c, u ∈ closedTrackList d (sortFrames frames) ∧ t = toActorTrack c u := by
  intro t ht
  have h1 : t ∈ coloredTracks d (sortFrames frames) :=
    (List.mem_insertionSort trackLE).mp (by simpa [buildTracks] using ht)
  rcases mem_idxMap (by simpa [coloredTracks] using h1) with ⟨i, u, hget, rfl⟩
  exact ⟨u, _, List.get?_mem hget, rfl⟩

/-- C1: for every input, every observation of every returned track is the
observation of some detection in some input frame whose actor type equals
the type of the track, so no track ever mixes actor types and the type a
track was created with is the type of all its observations. -/
theorem buildTracks_type_gate (d : WorldPos → WorldPos → ℚ)
    (frames : List ActorDetectionResult) (eid : String) :
    ∀ t ∈ (buildTracks d frames eid).tracks, ∀ o ∈ t.observations,
      ∃ f ∈ frames, ∃ a ∈ f.actors, a.type = t.type ∧ o = mkObservation f.timestamp a := by
  intro t ht o ho
  rcases buildTracks_shape t ht with ⟨u, c, hu, rfl⟩
  have hwf := (closedTrackList_sound u hu).1
  have ho2 : o ∈ u.observations := by simpa [toActorTrack] using ho
  rcases hwf.prov o ho2 with ⟨f, hf, a, ha, hty, he⟩
  have hf2 : f ∈ frames := (List.mem_insertionSort frameLE).mp (by simpa [sortFrames] using hf)
  exact ⟨f, hf2, a, ha, by simpa [toActorTrack] using hty, he⟩

/-- Witness for C1 at a concrete input. -/
theorem buildTracks_type_gate_witness :
    ∃ f ∈ gapFrames, ∃ a ∈ f.actors, a.type = gapTrack1.type ∧
      obsCar 1 = mkObservation f.timestamp a :=
  buildTracks_type_gate discreteDist gapFrames "e" gapTrack1 (by decide) (obsCar 1) (by decide)

/-- C2: for every input and every distance function `d` (in the source,
the haversine distance), consecutive observations of every returned track
are at most `MAX_MATCH_DISTANCE_M = 30` meters apart under `d`: a detection
is never appended to a track whose last observation is more than 30 meters
away. -/
theorem buildTracks_distance_gate (d : WorldPos → WorldPos → ℚ)
    (frames : List ActorDetectionResult) (eid : String) :
    ∀ t ∈ (buildTracks d frames eid).tracks,
      List.Chain' (fun o₁ o₂ => d o₁.worldPosition o₂.worldPosition ≤ MAX_MATCH_DISTANCE_M)
        t.observations := by
  intro t ht
  rcases buildTracks_shape t ht with ⟨u, c, hu, rfl⟩
  have hwf := (closedTrackList_sound u hu).1
  simpa [toActorTrack] using hwf.chain

/-- Witness for C2 at a concrete input. -/
theorem buildTracks_distance_gate_witness :
    List.Chain'
      (fun o₁ o₂ => discreteDist o₁.worldPosition o₂.worldPosition ≤ MAX_MATCH_DISTANCE_M)
      gapTrack1.observations :=
  buildTracks_distance_gate discreteDist gapFrames "e" gapTrack1 (by decide)

theorem mem_of_head?_eq {α : Type} {l : List α} {a : α} (h : l.head? = some a) : a ∈ l :=
  List.mem_of_mem_head? (Option.mem_def.mpr h)

theorem mem_of_getLast?_eq {α : Type} {l : List α} {a : α} (h : l.getLast? = some a) : a ∈ l := by
  rcases List.mem_getLast?_eq_getLast (Option.mem_def.mpr h) with ⟨hne, he⟩
  rw [he]
  exact List.getLast_mem hne

theorem sortFrames_sorted (frames : List ActorDetectionResult) :
    List.Pairwise (fun a b : ℚ => a ≤ b) ((sortFrames frames).map (fun f => f.timestamp)) := by
  have h := List.sorted_insertionSort frameLE frames
  rw [sortFrames]
  exact List.pairwise_map.mpr h

theorem sortFrames_perm_ts (frames : List ActorDetectionResult) :
    ((sortFrames frames).map (fun f => f.timestamp)).Perm
      (frames.map (fun f => f.timestamp)) :=
  (List.perm_insertionSort frameLE frames).map _

theorem toActorTrack_firstSeen {c : String} {u : OpenTrack} (h : u.observations ≠ []) :
    (obsTs u).head? = some ((toActorTrack c u).firstSeen) := by
  rcases hobs : u.observations with _ | ⟨o, rest⟩
  · exact absurd hobs h
  · simp [obsTs, toActorTrack, hobs]

theorem toActorTrack_lastSeen {c : String} {u : OpenTrack} (h : u.observations ≠ []) :
    (obsTs u).getLast? = some ((toActorTrack c u).lastSeen) := by
  rcases hobs : u.observations with _ | ⟨o, rest⟩
  · exact absurd hobs h
  · rcases hlast : (o :: rest).getLast? with _ | ol
    · simp at hlast
    · simp only [obsTs, hobs]
      rw [List.getLast?_map, hlast]
      simp [toActorTrack, hobs, hlast]

/-- C3: first, the no-gap property behind immediate closure: a returned
track holds an observation at the timestamp of every input frame lying
between its `firstSeen` and its `lastSeen`, because an open track that
misses a frame is closed at that frame and never reopened. Second, the
concrete scenario: a car in frame 1, an empty frame 2 and a car at the same
world position in frame 3 produce two separate tracks, not one. -/
theorem buildTracks_track_closure :
    (∀ (d : WorldPos → WorldPos → ℚ) (frames : List ActorDetectionResult) (eid : String),
      ∀ t ∈ (buildTracks d frames eid).tracks, ∀ f ∈ frames,
        t.firstSeen ≤ f.timestamp → f.timestamp ≤ t.lastSeen →
          f.timestamp ∈ t.observations.map (fun o => o.timestamp)) ∧
    (buildTracks discreteDist gapFrames "e").tracks.length = 2 := by
  constructor
  · intro d frames eid t ht f hf h1 h2
    rcases buildTracks_shape t ht with ⟨u, c, hu, rfl⟩
    rcases closedTrackList_sound u hu with ⟨hwf, s, t2, hst⟩
    have hS := sortFrames_sorted frames
    have hfS : f.timestamp ∈ (sortFrames frames).map (fun f => f.timestamp) := by
      refine List.mem_map.mpr ⟨f, ?_, rfl⟩
      rw [sortFrames]
      exact (List.mem_insertionSort frameLE).mpr hf
    have hne := hwf.nonempty
    have hfs_mem : (toActorTrack c u).firstSeen ∈ obsTs u :=
      mem_of_head?_eq (toActorTrack_firstSeen hne)
    have hls_mem : (toActorTrack c u).lastSeen ∈ obsTs u :=
      mem_of_getLast?_eq (toActorTrack_lastSeen hne)
    have hgoal : (toActorTrack c u).observations.map (fun o => o.timestamp) = obsTs u := rfl
    rw [hgoal]
    rw [← hst] at hfS hS
    rcases List.pairwise_append.mp hS with ⟨hS1, hS2, hcross2⟩
    rcases List.pairwise_append.mp hS1 with ⟨_, _, hcross1⟩
    rcases List.mem_append.mp hfS with hmem | hmem
    · rcases List.mem_append.mp hmem with hmem | hmem
      · have hle : f.timestamp ≤ (toActorTrack c u).firstSeen := hcross1 _ hmem _ hfs_mem
        have : f.timestamp = (toActorTrack c u).firstSeen := le_antisymm hle h1
        rw [this]
        exact hfs_mem
      · exact hmem
    · have hle : (toActorTrack c u).lastSeen ≤ f.timestamp :=
        hcross2 _ (List.mem_append.mpr (Or.inr hls_mem)) _ hmem
      have : f.timestamp = (toActorTrack c u).lastSeen := le_antisymm h2 hle
      rw [this]
      exact hls_mem
  · decide

/-- Witness for the universally quantified part of C3 at a concrete input. -/
theorem buildTracks_track_closure_witness :
    (1 : ℚ) ∈ gapTrack1.observations.map (fun o => o.timestamp) :=
  buildTracks_track_closure.1 discreteDist gapFrames "e" gapTrack1 (by decide)
    (mkFrame 1 [carActor posP]) (by decide) (by decide) (by decide)

/-- Counterexample to C4 as stated: two frames with the same timestamp, each
holding a car at the same world position, produce one track whose
observation timestamps are [1, 1], which is not strictly increasing. -/
theorem buildTracks_strict_timestamps_cex :
    ((buildTracks discreteDist dupTimestampFrames "e").tracks.map
      (fun t => t.observations.map (fun o => o.timestamp))) = [[1, 1]] ∧
    ¬ (([(1 : ℚ), 1]).Pairwise (fun a b : ℚ => a < b)) := by
  decide

/-- C4 as amended: when the input frame timestamps are pairwise distinct
(in particular whatever their order, since `buildTracks` sorts them), every
returned track has strictly increasing observation timestamps. -/
theorem buildTracks_strict_timestamps (d : WorldPos → WorldPos → ℚ)
    (frames : List ActorDetectionResult) (eid : String)
    (hnd : (frames.map (fun f => f.timestamp)).Nodup) :
    ∀ t ∈ (buildTracks d frames eid).tracks,
      (t.observations.map (fun o => o.timestamp)).Pairwise (fun a b : ℚ => a < b) := by
  intro t ht
  rcases buildTracks_shape t ht with ⟨u, c, hu, rfl⟩
  rcases closedTrackList_sound u hu with ⟨hwf, hinf⟩
  have hS := sortFrames_sorted frames
  have hSnd : ((sortFrames frames).map (fun f => f.timestamp)).Nodup :=
    ((sortFrames_perm_ts frames).nodup_iff).mpr hnd
  have hSlt := List.Sorted.lt_of_le hS hSnd
  exact List.Pairwise.sublist hinf.sublist hSlt

/-- Witness for the amended C4 at a concrete input. -/
theorem buildTracks_strict_timestamps_witness :
    (gapTrack1.observations.map (fun o => o.timestamp)).Pairwise (fun a b : ℚ => a < b) :=
  buildTracks_strict_timestamps discreteDist gapFrames "e" (by decide) gapTrack1 (by decide)

/-- Counterexample to C5 as stated: on `colorFrames` the returned tracks are
in ascending firstSeen order, yet the first track carries the second palette
color and the second track the first, because the source assigns colors by
index in closure order before the final sort by firstSeen. -/
theorem buildTracks_color_order_cex :
    ((buildTracks discreteDist colorFrames "e").tracks.map
      (fun t => (t.firstSeen, t.color))) = [(1, "#ef4444"), (2, "#3b82f6")] ∧
    "#ef4444" ≠ TRACK_COLORS.getD 0 "" := by
  decide

/-- C5 as amended: the returned tracks are ordered by ascending firstSeen
and are a permutation of the closure-ordered colored list, in which the
track at index `i` of the closure order carries palette entry `i mod 10`;
the palette index follows closure order, not the ascending-firstSeen order. -/
theorem buildTracks_color_order (d : WorldPos → WorldPos → ℚ)
    (frames : List ActorDetectionResult) (eid : String) :
    ((buildTracks d frames eid).tracks.Pairwise trackLE) ∧
    ((buildTracks d frames eid).tracks.Perm (coloredTracks d (sortFrames frames))) ∧
    (∀ i, ((coloredTracks d (sortFrames frames)).get? i).map (fun t => t.color) =
      ((closedTrackList d (sortFrames frames)).get? i).map
        (fun _ => TRACK_COLORS.getD (i % TRACK_COLORS.length) "")) := by
  refine ⟨?_, ?_, ?_⟩
  · have h := List.sorted_insertionSort trackLE (coloredTracks d (sortFrames frames))
    simpa [buildTracks] using h
  · have h := List.perm_insertionSort trackLE (coloredTracks d (sortFrames frames))
    simpa [buildTracks] using h
  · intro i
    rw [coloredTracks, idxMap_get?]
    rcases h : (closedTrackList d (sortFrames frames)).get? i with _ | u
    · simp
    · simp [toActorTrack]

/-- C6: the estimated distance of a detected actor is clamped to [2, 200]
before the world projection: below 2 the projection uses exactly 2, above
200 it uses exactly 200, inside the range it is unchanged, and the world
position is the projection taken exactly at the clamped distance. -/
theorem mapDetectedActor_clamp (project : BBox → ℚ → WorldPos × ℚ) (raw : RawActor) :
    ((mapDetectedActor project raw).estimatedDistanceMeters =
      max 2 (min 200 raw.estimatedDistanceMeters)) ∧
    (raw.estimatedDistanceMeters < 2 →
      (mapDetectedActor project raw).estimatedDistanceMeters = 2) ∧
    (200 < raw.estimatedDistanceMeters →
      (mapDetectedActor project raw).estimatedDistanceMeters = 200) ∧
    (2 ≤ raw.estimatedDistanceMeters → raw.estimatedDistanceMeters ≤ 200 →
      (mapDetectedActor project raw).estimatedDistanceMeters = raw.estimatedDistanceMeters) ∧
    (2 ≤ (mapDetectedActor project raw).estimatedDistanceMeters ∧
      (mapDetectedActor project raw).estimatedDistanceMeters ≤ 200) ∧
    ((mapDetectedActor project raw).worldPosition =
      (project raw.bbox ((mapDetectedActor project raw).estimatedDistanceMeters)).1) := by
  have he : (mapDetectedActor project raw).estimatedDistanceMeters =
      max 2 (min 200 raw.estimatedDistanceMeters) := rfl
  refine ⟨he, ?_, ?_, ?_, ⟨?_, ?_⟩, rfl⟩
  · intro h
    rw [he, min_eq_right (by linarith), max_eq_left (by linarith)]
  · intro h
    rw [he, min_eq_left (by linarith)]
    norm_num
  · intro h1 h2
    rw [he, min_eq_right h2, max_eq_right h1]
  · rw [he]
    exact le_max_left _ _
  · rw [he]
    exact max_le (by norm_num) (min_le_left _ _)

/-- Witness for C6 at a concrete input. -/
theorem mapDetectedActor_clamp_witness :
    (mapDetectedActor projConst rawNear).estimatedDistanceMeters = 2 :=
  (mapDetectedActor_clamp projConst rawNear).2.1 (by decide)

/-- C8: a stored session is used without running the per-keyframe loop
exactly when it parses and its stored keyframe count equals the freshly
computed count; a parsed session with a mismatched count leads to removal
of the stale entry and recomputation; and the check only reads the length
of the stored timestamp list, never the timestamp values. -/
theorem checkSessionCache_spec (stored : Option (Option ActorTrackingResult)) (n : ℕ) :
    (∀ cached, checkSessionCache stored n = .hit cached ↔
      stored = some (some cached) ∧ cached.keyframeTimestamps.length = n) ∧
    (∀ cached, stored = some (some cached) → cached.keyframeTimestamps.length ≠ n →
      checkSessionCache stored n = .missRemove) ∧
    (∀ cached (l : List ℚ), l.length = cached.keyframeTimestamps.length →
      (((∃ r, checkSessionCache (some (some { cached with keyframeTimestamps := l })) n =
          .hit r) ↔ (∃ r, checkSessionCache (some (some cached)) n = .hit r)) ∧
       (checkSessionCache (some (some { cached with keyframeTimestamps := l })) n =
          .missRemove ↔ checkSessionCache (some (some cached)) n = .missRemove))) := by
  refine ⟨?_, ?_, ?_⟩
  · intro cached
    constructor
    · intro h
      rcases stored with _ | (_ | c)
      · simp [checkSessionCache] at h
      · simp [checkSessionCache] at h
      · by_cases hc : c.keyframeTimestamps.length = n
        · rw [checkSessionCache, if_pos hc] at h
          cases h
          exact ⟨rfl, hc⟩
        · rw [checkSessionCache, if_neg hc] at h
          cases h
    · rintro ⟨rfl, hl⟩
      rw [checkSessionCache, if_pos hl]
  · intro cached h hne
    subst h
    rw [checkSessionCache, if_neg hne]
  · intro cached l hl
    by_cases hc : cached.keyframeTimestamps.length = n
    · rw [checkSessionCache, checkSessionCache]
      simp [hl, hc]
    · rw [checkSessionCache, checkSessionCache]
      simp [hl, hc]

/-- Witness for C8 at a concrete input. -/
theorem checkSessionCache_spec_witness :
    checkSessionCache (some (some sessionA)) 3 = .missRemove :=
  (checkSessionCache_spec (some (some sessionA)) 3).2.1 sessionA rfl (by decide)

theorem gatherFrames_append (lookup : ℚ → Option ActorDetectionResult)
    (detect : ℚ → Except String ActorDetectionResult) :
    ∀ (pre rest : List ℚ) (acc : List ActorDetectionResult),
      (∀ s ∈ pre, (lookup s).isSome ∨ ∃ fr, detect s = .ok fr) →
      ∃ frs : List ActorDetectionResult, frs.length = pre.length ∧
        gatherFrames lookup detect (pre ++ rest) acc =
          gatherFrames lookup detect rest (acc ++ frs) := by
  intro pre
  induction pre with
  | nil => intro rest acc _; exact ⟨[], rfl, by simp⟩
  | cons s pre ih =>
    intro rest acc h
    have hs := h s (List.mem_cons_self _ _)
    rcases hlk : lookup s with _ | fr
    · rcases hs with hsome | ⟨fr, hok⟩
      · rw [hlk] at hsome; simp at hsome
      · rcases ih rest (acc ++ [fr]) (fun z hz => h z (List.mem_cons_of_mem _ hz)) with
          ⟨frs, hlen, heq⟩
        refine ⟨fr :: frs, by simp [hlen], ?_⟩
        rw [List.cons_append]
        simp only [gatherFrames, hlk, hok]
        rw [heq]
        simp
    · rcases ih rest (acc ++ [fr]) (fun z hz => h z (List.mem_cons_of_mem _ hz)) with
        ⟨frs, hlen, heq⟩
      refine ⟨fr :: frs, by simp [hlen], ?_⟩
      rw [List.cons_append]
      simp only [gatherFrames, hlk]
      rw [heq]
      simp

/-- C9: if every keyframe before `t` resolves (from the per-frame cache or a
successful detection) and the request at keyframe `t` misses the cache and
fails, then the whole run aborts: no tracking session is produced or written
to the session cache, and the surfaced error progress reports the number of
frames completed so far (the keyframes before `t`) as `currentFrame`. -/
theorem runTrack_error_aborts (d : WorldPos → WorldPos → ℚ)
    (lookup : ℚ → Option ActorDetectionResult)
    (detect : ℚ → Except String ActorDetectionResult) (pre post : List ℚ) (t : ℚ)
    (e : String) (eid : String)
    (hpre : ∀ s ∈ pre, (lookup s).isSome ∨ ∃ fr, detect s = .ok fr)
    (hmiss : lookup t = none) (hfail : detect t = .error e) :
    runTrack d lookup detect (pre ++ t :: post) eid =
      (none, { currentFrame := pre.length, totalFrames := (pre ++ t :: post).length,
               status := "error", message := e }) := by
  rcases gatherFrames_append lookup detect pre (t :: post) [] hpre with ⟨frs, hlen, heq⟩
  have h2 : gatherFrames lookup detect (t :: post) ([] ++ frs) = .error (e, pre.length) := by
    simp only [gatherFrames, hmiss, hfail, List.nil_append]
    rw [hlen]
  rw [runTrack, heq, h2]

/-- Witness for C9 at a concrete input. -/
theorem runTrack_error_aborts_witness :
    runTrack discreteDist cacheOne detectFail [1, 2] "e" =
      (none, { currentFrame := 1, totalFrames := 2, status := "error", message := "boom" }) :=
  runTrack_error_aborts discreteDist cacheOne detectFail [1] [] 2 "boom" "e"
    (fun s hs => by
      rcases List.mem_singleton.mp hs with rfl
      exact Or.inl (by decide))
    (by decide) rfl

/-!
Counting lemmas for the detection partition property: every detection of
every frame contributes exactly one observation to exactly one track.
-/

theorem get?_isSome_lt {α : Type} {l : List α} {i : ℕ} (h : (l.get? i).isSome) :
    i < l.length := by
  by_contra hc
  rw [List.get?_eq_none.mpr (by omega)] at h
  simp at h

theorem sum_idxMap_newTrack (startId : ℕ) (ps : List (DetectedActor × ActorObservation)) :
    ∀ n : ℕ, ((idxMap (fun j p => newTrack (startId + j) p) n ps).map
      (fun t => t.observations.length)).sum = ps.length := by
  induction ps with
  | nil => intro n; rfl
  | cons p ps ih =>
    intro n
    simp only [idxMap, List.map_cons, List.sum_cons, ih (n + 1)]
    simp only [newTrack, List.length_cons, List.length_nil]
    omega

theorem sum_applyAssignment_aux (pairs : List (DetectedActor × ActorObservation))
    (asg : List (ℕ × ℕ)) :
    ∀ (tracks : List OpenTrack) (n : ℕ),
      ((idxMap (fun ti track =>
        match asg.lookup ti with
        | some oi =>
          match pairs.get? oi with
          | some p => appendObs track p.2
          | none => track
        | none => track) n tracks).map (fun t => t.observations.length)).sum =
      ((tracks.map (fun t => t.observations.length)).sum) +
        ((List.range' n tracks.length).filter
          (fun i => ((asg.lookup i).bind (fun oi => pairs.get? oi)).isSome)).length := by
  intro tracks
  induction tracks with
  | nil => intro n; simp [idxMap]
  | cons tr l ih =>
    intro n
    rw [show (tr :: l).length = l.length + 1 from rfl, List.range'_succ]
    rcases hlk : asg.lookup n with _ | oi
    · rw [List.filter_cons_of_neg (by rw [hlk]; simp)]
      simp only [idxMap, List.map_cons, List.sum_cons, hlk]
      rw [ih (n + 1)]
      omega
    · rcases hp : pairs.get? oi with _ | p
      · rw [List.filter_cons_of_neg (by rw [hlk, Option.some_bind, hp]; simp)]
        simp only [idxMap, List.map_cons, List.sum_cons, hlk, hp]
        rw [ih (n + 1)]
        omega
      · rw [List.filter_cons_of_pos (by rw [hlk, Option.some_bind, hp]; rfl)]
        simp only [idxMap, List.map_cons, List.sum_cons, hlk, hp]
        rw [ih (n + 1)]
        simp only [appendObs, List.length_append, List.length_cons, List.length_nil]
        omega

theorem filter_range'_keys (pairs : List (DetectedActor × ActorObservation))
    (asg : List (ℕ × ℕ)) (L : ℕ)
    (hval : ∀ kv ∈ asg, kv.1 < L ∧ ((pairs.get? kv.2).isSome = true))
    (hnd : (asg.map Prod.fst).Nodup) :
    ((List.range' 0 L).filter
      (fun i => ((asg.lookup i).bind (fun oi => pairs.get? oi)).isSome)).length =
      asg.length := by
  have hiff : ∀ i, (((asg.lookup i).bind (fun oi => pairs.get? oi)).isSome = true) ↔
      i ∈ asg.map Prod.fst := by
    intro i
    constructor
    · intro h
      rcases hlk : asg.lookup i with _ | oi
      · rw [hlk] at h; simp at h
      · exact List.mem_map.mpr ⟨(i, oi), lookup_mem hlk, rfl⟩
    · intro h
      have hs := lookup_isSome_of_mem_fst h
      rcases hlk : asg.lookup i with _ | oi
      · rw [hlk] at hs; simp at hs
      · rcases hval (i, oi) (lookup_mem hlk) with ⟨_, hp⟩
        simpa using hp
  have hperm : ((List.range' 0 L).filter
      (fun i => ((asg.lookup i).bind (fun oi => pairs.get? oi)).isSome)).Perm
        (asg.map Prod.fst) := by
    apply (List.perm_ext_iff_of_nodup ((List.nodup_range' 0 L).filter _) hnd).mpr
    intro a
    simp only [List.mem_filter, List.mem_range'_1]
    constructor
    · rintro ⟨_, hq⟩
      exact (hiff a).mp hq
    · intro ha
      refine ⟨⟨Nat.zero_le _, ?_⟩, (hiff a).mpr ha⟩
      rcases List.mem_map.mp ha with ⟨kv, hkv, rfl⟩
      have := (hval kv hkv).1
      omega
  have := hperm.length_eq
  simpa using this

theorem length_idxFilter_of_index {α : Type} (w : ℕ → Bool) (l : List α) :
    ∀ n, (idxFilter (fun i _ => w i) n l).length =
      ((List.range' n l.length).filter w).length := by
  induction l with
  | nil => intro n; simp [idxFilter]
  | cons x xs ih =>
    intro n
    rw [show (x :: xs).length = xs.length + 1 from rfl, List.range'_succ]
    cases hw : w n
    · rw [idxFilter, if_neg (by simp [hw]), List.filter_cons_of_neg (by simp [hw]), ih]
    · rw [idxFilter, if_pos (by simp [hw]), List.filter_cons_of_pos (by simp [hw])]
      simp [ih (n + 1)]

theorem sum_idxFilter_split {α : Type} (g : α → ℕ) (p : ℕ → α → Bool) (l : List α) :
    ∀ n, ((idxFilter p n l).map g).sum +
      ((idxFilter (fun i a => !(p i a)) n l).map g).sum = (l.map g).sum := by
  induction l with
  | nil => intro n; simp [idxFilter]
  | cons x xs ih =>
    intro n
    cases hp : p n x
    · rw [idxFilter, idxFilter, if_neg (by simp [hp]), if_pos (by simp [hp])]
      simp only [List.map_cons, List.sum_cons]
      have := ih (n + 1)
      omega
    · rw [idxFilter, idxFilter, if_pos (by simp [hp]), if_neg (by simp [hp])]
      simp only [List.map_cons, List.sum_cons]
      have := ih (n + 1)
      omega

theorem filter_not_length {α : Type} (p : α → Bool) (l : List α) :
    (l.filter p).length + (l.filter (fun x => !(p x))).length = l.length := by
  have := (List.filter_append_perm p l).length_eq
  rw [List.length_append] at this
  omega

theorem length_unmatchedOf (pairs : List (DetectedActor × ActorObservation))
    (asg : List (ℕ × ℕ))
    (hval : ∀ kv ∈ asg, (pairs.get? kv.2).isSome = true)
    (hnd : (asg.map Prod.snd).Nodup) :
    (unmatchedOf pairs asg).length + asg.length = pairs.length := by
  rw [unmatchedOf, length_idxFilter_of_index (fun i => !((asg.map Prod.snd).contains i)) pairs 0]
  have hcnt : ((List.range' 0 pairs.length).filter
      (fun i => (asg.map Prod.snd).contains i)).length = (asg.map Prod.snd).length := by
    have hperm : ((List.range' 0 pairs.length).filter
        (fun i => (asg.map Prod.snd).contains i)).Perm (asg.map Prod.snd) := by
      apply (List.perm_ext_iff_of_nodup
        ((List.nodup_range' 0 pairs.length).filter _) hnd).mpr
      intro a
      simp only [List.mem_filter, List.mem_range'_1]
      constructor
      · rintro ⟨_, hq⟩
        exact List.elem_iff.mp hq
      · intro ha
        refine ⟨⟨Nat.zero_le _, ?_⟩, List.elem_iff.mpr ha⟩
        rcases List.mem_map.mp ha with ⟨kv, hkv, rfl⟩
        have := get?_isSome_lt (l := pairs) (by rw [hval kv hkv])
        omega
    exact hperm.length_eq
  have hsplit := filter_not_length (fun i => (asg.map Prod.snd).contains i) (List.range' 0 pairs.length)
  rw [List.length_range'] at hsplit
  rw [List.length_map] at hcnt
  omega

theorem stepFrame_count (d : WorldPos → WorldPos → ℚ) (st : BuildState)
    (frame : ActorDetectionResult) :
    (((stepFrame d st frame).closedTracks ++ (stepFrame d st frame).openTracks).map
      (fun t => t.observations.length)).sum =
    ((st.closedTracks ++ st.openTracks).map (fun t => t.observations.length)).sum +
      frame.actors.length := by
  have hval : ∀ kv ∈ frameAsg d st.openTracks (framePairs frame),
      kv.1 < st.openTracks.length ∧
        ((framePairs frame).get? kv.2).isSome = true := by
    intro kv hkv
    rcases kv with ⟨a, b⟩
    rcases frameAsg_gate hkv with ⟨tr, p, hget, hp, _, _⟩
    constructor
    · exact get?_isSome_lt (by rw [hget]; rfl)
    · rw [hp]; rfl
  have hfst := (greedyAssign_fst_nodup
    (List.insertionSort candLE (candidateList d st.openTracks (framePairs frame))) [] []).1
  have hsnd := (greedyAssign_snd_nodup
    (List.insertionSort candLE (candidateList d st.openTracks (framePairs frame))) [] []).1
  have hA := sum_applyAssignment_aux (framePairs frame)
    (frameAsg d st.openTracks (framePairs frame)) st.openTracks 0
  have hB := filter_range'_keys (framePairs frame)
    (frameAsg d st.openTracks (framePairs frame)) st.openTracks.length hval
    (by rw [frameAsg]; exact hfst)
  have hC := sum_idxFilter_split (fun t => t.observations.length)
    (fun ti _ => ((frameAsg d st.openTracks (framePairs frame)).lookup ti).isSome)
    (applyAssignment st.openTracks (framePairs frame)
      (frameAsg d st.openTracks (framePairs frame))) 0
  have hD := sum_idxMap_newTrack st.nextId
    (unmatchedOf (framePairs frame) (frameAsg d st.openTracks (framePairs frame))) 0
  have hE := length_unmatchedOf (framePairs frame)
    (frameAsg d st.openTracks (framePairs frame)) (fun kv hkv => (hval kv hkv).2)
    (by rw [frameAsg]; exact hsnd)
  have hlen : (framePairs frame).length = frame.actors.length := by
    rw [framePairs, List.length_map]
  have happly : ((applyAssignment st.openTracks (framePairs frame)
      (frameAsg d st.openTracks (framePairs frame))).map
        (fun t => t.observations.length)).sum =
      ((st.openTracks.map (fun t => t.observations.length)).sum) +
        (frameAsg d st.openTracks (framePairs frame)).length := by
    rw [applyAssignment, hA, hB]
  simp only [stepFrame, List.map_append, List.sum_append, List.map_reverse, List.sum_reverse]
  rw [happly] at hC
  omega

theorem runFrames_count (d : WorldPos → WorldPos → ℚ) :
    ∀ (l : List ActorDetectionResult) (st : BuildState),
      (((l.foldl (stepFrame d) st).closedTracks ++ (l.foldl (stepFrame d) st).openTracks).map
        (fun t => t.observations.length)).sum =
      ((st.closedTracks ++ st.openTracks).map (fun t => t.observations.length)).sum +
        (l.map (fun f => f.actors.length)).sum := by
  intro l
  induction l with
  | nil => intro st; simp
  | cons fr rest ih =>
    intro st
    have h1 := stepFrame_count d st fr
    have h2 := ih (stepFrame d st fr)
    simp only [List.foldl_cons, List.map_cons, List.sum_cons]
    omega

theorem coloredTracks_map_len_aux (cfun : ℕ → String) (l : List OpenTrack) :
    ∀ n, ((idxMap (fun i t => toActorTrack (cfun i) t) n l).map
      (fun t => t.observations.length)) = l.map (fun t => t.observations.length) := by
  induction l with
  | nil => intro n; rfl
  | cons x xs ih =>
    intro n
    simp only [idxMap, List.map_cons, ih (n + 1)]
    rfl

theorem coloredTracks_map_len (d : WorldPos → WorldPos → ℚ)
    (frames : List ActorDetectionResult) :
    (coloredTracks d frames).map (fun t => t.observations.length) =
      (closedTrackList d frames).map (fun t => t.observations.length) := by
  rw [coloredTracks]
  exact coloredTracks_map_len_aux
    (fun i => TRACK_COLORS.getD (i % TRACK_COLORS.length) "") (closedTrackList d frames) 0

theorem ratFloor_eq_intFloor (q : ℚ) : q.floor = ⌊q⌋ := rfl

theorem jsRound10_half_add (k : ℕ) : jsRound10 (1/2 + (k : ℚ)) = 1/2 + (k : ℚ) := by
  have hfloor : ((1/2 + (k : ℚ)) * 10 + 1/2).floor = 10 * (k : ℤ) + 5 := by
    rw [ratFloor_eq_intFloor,
      show (1/2 + (k : ℚ)) * 10 + 1/2 = ((10 * (k : ℤ) + 5 : ℤ) : ℚ) + 1/2 by push_cast; ring,
      Int.floor_int_add, show ⌊(1:ℚ)/2⌋ = 0 by norm_num]
    ring
  rw [jsRound10, jsRound, hfloor]
  push_cast
  ring

theorem keyframeLoop_eq (c : ℚ) : ∀ (fuel : ℕ) (t : ℚ), ⌈c - 1/2 - t⌉.toNat ≤ fuel →
    keyframeLoop c fuel t =
      (List.range ⌈c - 1/2 - t⌉.toNat).map (fun k : ℕ => jsRound10 (t + (k : ℚ))) := by
  intro fuel
  induction fuel with
  | zero =>
    intro t h
    rw [keyframeLoop, Nat.le_zero.mp h]
    rfl
  | succ fuel ih =>
    intro t h
    by_cases hlt : t < c - 1/2
    · have hpos : (0 : ℤ) < ⌈c - 1/2 - t⌉ := by
        rw [Int.lt_ceil]
        push_cast
        linarith
      obtain ⟨m, hm⟩ : ∃ m, ⌈c - 1/2 - t⌉.toNat = m + 1 :=
        ⟨⌈c - 1/2 - t⌉.toNat - 1, by omega⟩
      have hnext : ⌈c - 1/2 - (t + 1)⌉ = ⌈c - 1/2 - t⌉ - 1 := by
        rw [show c - 1/2 - (t + 1) = (c - 1/2 - t) - 1 by ring, Int.ceil_sub_one]
      have hnextNat : ⌈c - 1/2 - (t + 1)⌉.toNat = m := by omega
      rw [keyframeLoop, if_pos hlt, ih (t + 1) (by omega), hnextNat, hm,
        List.range_succ_eq_map]
      simp only [List.map_cons, List.map_map]
      congr 1
      · congr 1
        push_cast
        ring
      · refine List.map_congr_left ?_
        intro a _
        simp only [Function.comp]
        congr 1
        push_cast
        ring
    · have hle : ⌈c - 1/2 - t⌉.toNat = 0 := by
        have h1 : ⌈c - 1/2 - t⌉ ≤ 0 := Int.ceil_le.mpr (by push_cast; linarith)
        omega
      rw [keyframeLoop, if_neg hlt, hle]
      rfl

theorem getLast?_range_map (f : ℕ → ℚ) (m : ℕ) :
    (((List.range (m + 1)).map f).getLast?) = some (f m) := by
  rw [List.range_succ, List.map_append]
  simp [List.getLast?_concat]

/-- C7: for every video duration, the keyframe schedule of the tracking hook
is exactly the schedule the specification describes: timestamps starting at
0.5s stepping 1.0s while below `duration - 0.5`, each rounded to 0.1s, with
one extra keyframe at `max (duration - 1) 0.5` rounded to 0.1s, appended
exactly when the list is empty or its last timestamp is more than 1s below
`duration - 1`. -/
theorem computeKeyframes_spec (duration : ℚ) :
    computeKeyframes duration = specKeyframeSchedule duration := by
  have hN : ⌈duration - 1/2 - 1/2⌉ = ⌈duration - 1⌉ := by
    congr 1
    ring
  have hfuel : ⌈duration - 1/2 - 1/2⌉.toNat ≤ ⌈duration⌉.toNat + 1 := by
    have h2 : ⌈duration - 1⌉ = ⌈duration⌉ - 1 := Int.ceil_sub_one duration
    omega
  have hbase : keyframeLoop duration (⌈duration⌉.toNat + 1) (1/2) =
      (List.range ⌈duration - 1⌉.toNat).map (fun k : ℕ => jsRound10 (1/2 + (k : ℚ))) := by
    rw [keyframeLoop_eq duration (⌈duration⌉.toNat + 1) (1/2) (by rw [hN] at hfuel ⊢; exact hfuel),
      hN]
  simp only [computeKeyframes, specKeyframeSchedule]
  rw [hbase]
  rcases hm : ⌈duration - 1⌉.toNat with _ | m
  · rfl
  · have hlast := getLast?_range_map (fun k : ℕ => jsRound10 (1/2 + (k : ℚ))) m
    rw [hlast]
    have hlastval : jsRound10 (1/2 + (m : ℚ)) = 1/2 + (m : ℚ) := jsRound10_half_add m
    have hceil : ⌈duration - 1⌉ = (m : ℤ) + 1 := by omega
    have hub : duration - 1 ≤ (m : ℚ) + 1 := by
      have h3 := Int.ceil_le.mp (le_of_eq hceil)
      push_cast at h3
      linarith
    have hlb : (m : ℚ) < duration - 1 := by
      have h3 : (m : ℤ) < ⌈duration - 1⌉ := by omega
      have h4 := Int.lt_ceil.mp h3
      push_cast at h4
      exact h4
    have hiff : (1/2 + (m : ℚ) < max (duration - 1) (1/2) - 1) ↔
        (1/2 + (m : ℚ) < duration - 1 - 1) := by
      rcases le_total (1/2 : ℚ) (duration - 1) with hc | hc
      · rw [max_eq_left hc]
      · rw [max_eq_right hc]
        have hm0 : (0 : ℚ) ≤ (m : ℚ) := Nat.cast_nonneg m
        constructor
        · intro hx; exfalso; linarith
        · intro hx; exfalso; linarith
    simp only [hlastval]
    exact if_congr hiff rfl rfl

/-- C10: the detection partition property: the total number of observations
over all returned tracks equals the total number of detections over all
input frames, so every detection contributes exactly one observation to
exactly one track and none is dropped or duplicated. -/
theorem buildTracks_obs_partition (d : WorldPos → WorldPos → ℚ)
    (frames : List ActorDetectionResult) (eid : String) :
    ((buildTracks d frames eid).tracks.map (fun t => t.observations.length)).sum =
      (frames.map (fun f => f.actors.length)).sum := by
  have hperm : (buildTracks d frames eid).tracks.Perm (coloredTracks d (sortFrames frames)) := by
    have h := List.perm_insertionSort trackLE (coloredTracks d (sortFrames frames))
    simpa [buildTracks] using h
  rw [(hperm.map (fun t => t.observations.length)).sum_eq, coloredTracks_map_len]
  have hrun := runFrames_count d (sortFrames frames)
    { openTracks := [], closedTracks := [], nextId := 1 }
  have hclosed : (closedTrackList d (sortFrames frames)).map (fun t => t.observations.length) =
      (((runFrames d (sortFrames frames)).closedTracks ++
        (runFrames d (sortFrames frames)).openTracks).map (fun t => t.observations.length)) := by
    rw [closedTrackList]
  rw [hclosed, runFrames]
  rw [hrun]
  have hpf : ((sortFrames frames).map (fun f => f.actors.length)).sum =
      (frames.map (fun f => f.actors.length)).sum := by
    exact ((List.perm_insertionSort frameLE frames).map (fun f => f.actors.length)).sum_eq
  simp [sortFrames] at hpf ⊢
  omega

end AEV
